import Mathlib

/-!
Verification of the signaling / subscription-synchronization core of the
True-Gather frontend (WebSocket signaling channel, publisher session,
subscriber session, room-session orchestrator).

The TypeScript sources are shallowly embedded: every stateful component
becomes an explicit state record with a step function over an event type,
mirroring the single-threaded event-loop execution of the source (each
event handler runs atomically up to its next `await`).  Pure decision
logic becomes plain functions.  Where the repository snapshot contains
only the caller of a function (the batched `subscribeMultiple` of the
subscriber session and the result-reporting `replaceTrack` variant of the
publisher session), the missing function is modelled from the
specification and marked as such in its doc comment.
-/

namespace Signaling

/-! ## Signaling channel (useSignalingWs.ts / part_010)

Request/response correlation, the pending-request map, the 30 s timeout,
reconnection backoff and `disconnect()`.  The model records a log of the
micro-operations the source performs on a pending entry (timer set/clear,
map removal, promise settlement), tagged with the index of the event-loop
turn that performed them, in the exact program order of the source. -/

/-- How a `sendRequest` promise settles. -/
inductive Outcome
  | resolved
  | serverError (msg : String)
  | timedOut
  | disconnected
deriving DecidableEq, Repr

/-- Micro-operations on a pending request entry, in source program order:
`setTimer` (the `setTimeout` in `sendRequest`), `clearTimer`
(`clearTimeout`), `remove` (`pendingRequests.delete` / `clear`),
`settle` (calling `resolve` or `reject`). -/
inductive MOp
  | setTimer (id : Nat)
  | clearTimer (id : Nat)
  | remove (id : Nat)
  | settle (id : Nat) (o : Outcome)
deriving DecidableEq, Repr

/-- Channel state.  `pending` is the insertion-ordered key set of the
`pendingRequests` map; every pending entry owns one active timeout, as in
the source (the timer is set when the entry is created and cleared
whenever the entry is removed).  `used` records every request id ever
allocated: `generateRequestId` never reuses an id. -/
structure ChState where
  pending : List Nat
  used : List Nat
  attempts : Nat
  reconnectDelay : Option Nat
  connected : Bool
deriving DecidableEq, Repr

/-- External events driving the channel. -/
inductive ChEvent
  | sendReq (id : Nat)
  | frame (id : Nat) (isError : Bool) (msg : String)
  | timerFire (id : Nat)
  | wsClose (code : Nat)
  | wsOpen
  | disconnect
deriving DecidableEq, Repr

/-- A run: current state, the tagged micro-op log, the scheduled
reconnect delays in order, and the next event index. -/
structure ChRun where
  st : ChState
  log : List (Nat × MOp)
  delays : List Nat
  evIx : Nat
deriving DecidableEq, Repr

/-- `delay = min(INITIAL_BACKOFF * 2^attempt, 30000)` from `scheduleReconnect`. -/
def backoffDelay (attempt : Nat) : Nat :=
  min (1000 * 2 ^ attempt) 30000

/-- One event-loop turn of the channel, mirroring `useSignalingWs`:

* `sendReq`: `sendRequest` throws when not connected; otherwise it
  registers a fresh id in `pendingRequests` together with its timeout.
* `frame`: `handleMessage` with a matching `request_id` clears the
  timeout, deletes the entry, then rejects (type `error`) or resolves.
* `timerFire`: the timeout callback deletes the entry, then rejects.
* `wsClose`: `onclose` marks the channel disconnected and, when the code
  is not 1000 and fewer than `MAX_RECONNECT_ATTEMPTS = 5` attempts were
  made, schedules a reconnect with exponential backoff.  It does not
  touch `pendingRequests`.
* `wsOpen`: `onopen` resets the attempt counter.
* `disconnect`: cancels the reconnect timer, closes the socket, then for
  each pending entry clears its timeout and rejects it, and finally
  clears the map. -/
def chStep (r : ChRun) (e : ChEvent) : ChRun :=
  let s := r.st
  let k := r.evIx
  let next := fun (st : ChState) (ops : List MOp) (ds : List Nat) =>
    { st := st, log := r.log ++ ops.map (fun o => (k, o)),
      delays := r.delays ++ ds, evIx := k + 1 : ChRun }
  match e with
  | .sendReq id =>
      if s.connected && !s.used.contains id then
        next { s with pending := s.pending ++ [id], used := s.used ++ [id] }
          [.setTimer id] []
      else next s [] []
  | .frame id isError msg =>
      if s.pending.contains id then
        next { s with pending := s.pending.erase id }
          [.clearTimer id, .remove id,
           .settle id (if isError then .serverError msg else .resolved)] []
      else next s [] []
  | .timerFire id =>
      if s.pending.contains id then
        next { s with pending := s.pending.erase id }
          [.remove id, .settle id .timedOut] []
      else next s [] []
  | .wsClose code =>
      if code ≠ 1000 && s.attempts < 5 then
        next { s with connected := false, attempts := s.attempts + 1,
                      reconnectDelay := some (backoffDelay s.attempts) }
          [] [backoffDelay s.attempts]
      else next { s with connected := false } [] []
  | .wsOpen =>
      next { s with connected := true, attempts := 0 } [] []
  | .disconnect =>
      next { s with pending := [], reconnectDelay := none, connected := false }
        ((s.pending.map (fun id => [MOp.clearTimer id, MOp.settle id .disconnected])).flatten
          ++ s.pending.map MOp.remove) []

/-- Initial run: a channel that has just connected successfully. -/
def chInit : ChRun :=
  { st := { pending := [], used := [], attempts := 0,
            reconnectDelay := none, connected := true },
    log := [], delays := [], evIx := 0 }

def runCh (events : List ChEvent) : ChRun :=
  events.foldl chStep chInit

/-- Is this micro-op a settlement of the given request id? -/
def isSettleOf (id : Nat) (p : Nat × MOp) : Bool :=
  match p.2 with
  | .settle i _ => i == id
  | _ => false

/-- Number of settlement micro-ops for a given request id in a log. -/
def settles (log : List (Nat × MOp)) (id : Nat) : Nat :=
  log.countP (isSettleOf id)

/-- "The pending map entry is deleted before the promise is resolved or
rejected", read over the micro-op log: scanning left to right, every
settlement of an id must already have seen a removal of that id. -/
def removeBeforeSettle : List Nat → List (Nat × MOp) → Bool
  | _, [] => true
  | removed, (_, MOp.remove id) :: rest => removeBeforeSettle (id :: removed) rest
  | removed, (_, MOp.settle id _) :: rest =>
      removed.contains id && removeBeforeSettle removed rest
  | removed, _ :: rest => removeBeforeSettle removed rest

/-- Channel invariant tying the pending map to the settlement log: the
pending key set is duplicate-free, every pending id was allocated, a
pending request has not settled yet, no request ever settles twice, an
id never allocated never settles, and every settlement is paired with a
removal of the same entry performed by the same event-loop turn. -/
def ChInv (r : ChRun) : Prop :=
  r.st.pending.Nodup
  ∧ (∀ id ∈ r.st.pending, id ∈ r.st.used)
  ∧ (∀ id ∈ r.st.pending, settles r.log id = 0)
  ∧ (∀ id, settles r.log id ≤ 1)
  ∧ (∀ id, id ∉ r.st.used → settles r.log id = 0)
  ∧ (∀ k id o, (k, MOp.settle id o) ∈ r.log → (k, MOp.remove id) ∈ r.log)

/-- The claim of C5 at a concrete run: after the trace, every request in
`ids` has been rejected with the Disconnected error, and a reconnect is
scheduled. -/
def c5ClaimAt (events : List ChEvent) (ids : List Nat) : Prop :=
  (∀ id ∈ ids,
    (runCh events).log.any (fun p => p.2 = MOp.settle id .disconnected) = true)
  ∧ (runCh events).st.reconnectDelay ≠ none

/-! ### Event dispatch (`on`/`off`/`handleMessage`, claim C9)

`messageHandlers` maps a message type to a JS `Set` of handlers, which
iterates in insertion order.  The whole body of `handleMessage` sits in a
single `try`/`catch`, and `handlers.forEach(h => h(message))` does not
catch exceptions, so a throwing handler aborts the rest of the dispatch.
Handlers are modelled by an identity and whether they throw. -/

structure Handler where
  hid : Nat
  throws : Bool
deriving DecidableEq, Repr

/-- `on(type, handler)`: `Set.add` appends unless already present. -/
def register (hs : List Handler) (h : Handler) : List Handler :=
  if hs.any (fun g => g.hid == h.hid) then hs else hs ++ [h]

/-- `off(type, handler)`: `Set.delete`. -/
def unregister (hs : List Handler) (h : Handler) : List Handler :=
  hs.filter (fun g => g.hid ≠ h.hid)

/-- `handlers.forEach(handler => handler(message))` under exception
semantics: returns the invoked handler ids in order, and whether an
exception aborted the iteration. -/
def runHandlers : List Handler → List Nat × Bool
  | [] => ([], false)
  | h :: rest =>
      if h.throws then ([h.hid], true)
      else
        let r := runHandlers rest
        (h.hid :: r.1, r.2)

/-- Dispatch of one inbound non-correlated message in `handleMessage`:
the type-specific set runs first, then the wildcard set; an exception
anywhere propagates to the surrounding `catch`, skipping everything
after it. -/
def dispatch (typeHs wildHs : List Handler) : List Nat :=
  let r := runHandlers typeHs
  if r.2 then r.1 else r.1 ++ (runHandlers wildHs).1

/-! ### Mock mode of the channel (claim C10)

The `useSignalingWs.ts` variant under `src/app/composables` short-cuts
every operation when the url looks local. -/

/-- Does the character list start with the given pattern? -/
def charsStartWith : List Char → List Char → Bool
  | _, [] => true
  | [], _ :: _ => false
  | c :: cs, p :: ps => c == p && charsStartWith cs ps

/-- Substring containment over character lists. -/
def charsContain : List Char → List Char → Bool
  | [], pat => pat.isEmpty
  | c :: cs, pat => charsStartWith (c :: cs) pat || charsContain cs pat

/-- `wsUrl.includes(pat)`. -/
def containsSub (s pat : String) : Bool :=
  charsContain s.toList pat.toList

/-- `wsUrl.includes('localhost') || wsUrl.includes('mock')`. -/
def isMockUrl (url : String) : Bool :=
  containsSub url "localhost" || containsSub url "mock"

/-- Observable state of the mock-capable channel variant. -/
structure MState where
  mockMode : Bool
  isConnected : Bool
  isConnecting : Bool
  wsCreated : Nat
  transmitted : List String
deriving DecidableEq, Repr

/-- Fresh channel state: `mockMode` starts `true`, nothing connected. -/
def mInit : MState :=
  { mockMode := true, isConnected := false, isConnecting := false,
    wsCreated := 0, transmitted := [] }

/-- `connect(wsUrl)` of the mock-capable variant: no-op when already
connected or connecting; otherwise decides mock mode from the url and
either reports connected without any transport, or opens a WebSocket. -/
def connectM (s : MState) (url : String) : MState :=
  if s.isConnected || s.isConnecting then s
  else if isMockUrl url then
    { s with mockMode := true, isConnected := true, isConnecting := false }
  else
    { s with mockMode := false, isConnecting := true,
             wsCreated := s.wsCreated + 1 }

/-- The settlement of a mock request: response type after a delay, or a
rejection after the same delay (the `await` precedes the `switch`). -/
inductive MockReply
  | replyOk (respType : String) (delayMs : Nat)
  | replyErr (msg : String) (delayMs : Nat)
deriving DecidableEq, Repr

/-- `handleMockRequest` response mapping. -/
def handleMockRequest (t : String) : MockReply :=
  if t = "join_room" then .replyOk "joined" 100
  else if t = "publish_offer" then .replyOk "publish_answer" 100
  else if t = "subscribe" then .replyOk "subscribe_offer" 100
  else if t = "leave" then .replyOk "left" 100
  else if t = "ping" then .replyOk "pong" 100
  else .replyErr ("Unknown message type: " ++ t) 100

/-- `sendRequest` in mock mode: delegates to `handleMockRequest`
without touching the socket, the pending map or the wire. -/
def sendRequestM (s : MState) (t : String) : MState × Option MockReply :=
  if s.mockMode then (s, some (handleMockRequest t))
  else if s.isConnected then
    ({ s with transmitted := s.transmitted ++ [t] }, none)
  else (s, none)

/-- `send(type, payload)` in mock mode transmits nothing. -/
def sendM (s : MState) (t : String) : MState :=
  if s.mockMode then s
  else { s with transmitted := s.transmitted ++ [t] }

/-- The claim of C10 about the mock response mapping: any request type
other than the four listed ones rejects. -/
def c10RejectsOthers : Prop :=
  ∀ t : String, t ∉ ["join_room", "publish_offer", "subscribe", "ping"] →
    ∃ m d, handleMockRequest t = .replyErr m d

end Signaling

namespace Orch

/-! ## Session orchestrator (room store in `stores/settings.ts`)

`syncSubscriptions` and its single-flight + pending-retry serialization
(claims C1 and C2).  The sync body runs atomically between `await`
boundaries; the two suspension points are the batched `subscribe`
request and the subscriber session's `subscribeMultiple`.  The model
keeps the in-flight sync's continuation as a `phase` and drives it with
resume events. -/

/-- A publisher record as kept in the `publishers` map. -/
structure Pub where
  feed_id : String
  display : String
  user_id : String
deriving DecidableEq, Repr

/-- Wire messages the orchestrator emits for subscriptions.
`subscribeReq` is a correlated `sendRequest` (awaits its response);
`subscribeAnswer` is a fire-and-forget `send`. -/
inductive Wire
  | subscribeReq (feeds : List String)
  | subscribeAnswer (sdp : String)
deriving DecidableEq, Repr

/-- Whether a wire message expects a server acknowledgement. -/
def Wire.expectsAck : Wire → Bool
  | .subscribeReq _ => true
  | .subscribeAnswer _ => false

/-- Where the in-flight sync is suspended. -/
inductive SyncPhase
  | awaitingOffer (feeds : List String)
  | awaitingAnswer (feeds : List String) (offerSdp : String)
deriving DecidableEq, Repr

/-- The subscriber session state produced by the batched subscribe.
Modelled from the spec: `subscribeMultiple` "creates a receive-only
peer connection, applies the given offer as remote description, ...
creates and applies a local answer, and returns its SDP"; the
implementation of `subscribeMultiple` is absent from `src/` (only its
caller `syncSubscriptions` is present). -/
structure SubSession where
  remoteDescription : String
  direction : String
  feedIds : List String
deriving DecidableEq, Repr

/-- Modelled from the spec: the local answer SDP the subscriber session
produces for a given remote offer. -/
def mkAnswer (offerSdp : String) : String :=
  "answer:" ++ offerSdp

/-- Modelled from the spec: `subscribeMultiple(feedIds, offerSdp,
displays, userIds) -> answerSdp` (batched form, absent from `src/`):
builds a receive-only peer connection with the offer applied as remote
description and returns the local answer SDP. -/
def subscribeMultiple (feedIds : List String) (offerSdp : String)
    (_displays _userIds : List String) : SubSession × String :=
  ({ remoteDescription := offerSdp, direction := "recvonly",
     feedIds := feedIds }, mkAnswer offerSdp)

/-- Orchestrator state (the room store fields relevant to subscription
synchronization). -/
structure OState where
  publishers : List Pub
  userId : String
  isJoined : Bool
  connected : Bool
  inProgress : Bool
  pendingFlag : Bool
  phase : Option SyncPhase
  outstanding : Nat
  sent : List Wire
  cleanups : Nat
  remoteStreams : List (String × String)
  subSession : Option SubSession
  syncStarts : Nat
  subCalls : List (List String × String × List String × List String)
deriving DecidableEq, Repr

/-- The feed list one sync run computes: all publishers whose `user_id`
differs from our own, in map order. -/
def feedsOf (s : OState) : List String :=
  (s.publishers.filter (fun p => p.user_id ≠ s.userId)).map Pub.feed_id

/-- `publishers.value.get(id)?.display ?? ''`. -/
def displayOf (s : OState) (f : String) : String :=
  ((s.publishers.find? (fun p => p.feed_id = f)).map Pub.display).getD ""

/-- `publishers.value.get(id)?.user_id ?? ''`. -/
def userIdOf (s : OState) (f : String) : String :=
  ((s.publishers.find? (fun p => p.feed_id = f)).map Pub.user_id).getD ""

/-- The sync body once past both guards: set `inProgress`, clear
`pendingFlag`, compute the feed list; an empty list tears the
subscriber session down synchronously (and the `finally` immediately
clears `inProgress` again — no `await` on this path); a non-empty list
sends one batched `subscribe` request and suspends on its response. -/
def startSyncBody (s : OState) : OState :=
  let feeds := feedsOf s
  if feeds.isEmpty then
    { s with cleanups := s.cleanups + 1, subSession := none,
             remoteStreams := [], inProgress := false, pendingFlag := false,
             syncStarts := s.syncStarts + 1 }
  else
    { s with inProgress := true, pendingFlag := false,
             syncStarts := s.syncStarts + 1,
             outstanding := s.outstanding + 1,
             sent := s.sent ++ [.subscribeReq feeds],
             phase := some (.awaitingOffer feeds) }

/-- A call to `syncSubscriptions()`: if a sync is in flight, set the
pending flag and return; if not joined or disconnected, return; else run
the body. -/
def callSync (s : OState) : OState :=
  if s.inProgress then { s with pendingFlag := true }
  else if s.isJoined && s.connected then startSyncBody s
  else s

/-- The `finally` block of `syncSubscriptions`: clear `inProgress`, and
if the pending flag was set during the run, clear it and run again. -/
def finishSync (s : OState) : OState :=
  let s1 := { s with inProgress := false, phase := none }
  if s1.pendingFlag then callSync { s1 with pendingFlag := false } else s1

/-- Events driving the orchestrator: sync triggers, resumptions of the
in-flight sync, server presence pushes, and remote streams delivered by
the subscriber callback. -/
inductive OEvent
  | trigger
  | offerArrives (sdp : String)
  | answerReady
  | syncFails
  | pubJoined (p : Pub)
  | pubLeft (feedId : String)
  | streamArrives (feedId stream : String)
deriving DecidableEq, Repr

/-- `publishers.value.set(feed_id, pub)`: JS `Map.set` updates in place
when the key exists and appends otherwise. -/
def setPub (ps : List Pub) (p : Pub) : List Pub :=
  if ps.any (fun q => q.feed_id == p.feed_id) then
    ps.map (fun q => if q.feed_id == p.feed_id then p else q)
  else ps ++ [p]

/-- One event-loop turn of the orchestrator. -/
def oStep (s : OState) (e : OEvent) : OState :=
  match e with
  | .trigger => callSync s
  | .offerArrives sdp =>
      match s.phase with
      | some (.awaitingOffer feeds) =>
          let displays := feeds.map (displayOf s)
          let userIds := feeds.map (userIdOf s)
          let res := subscribeMultiple feeds sdp displays userIds
          { s with outstanding := s.outstanding - 1,
                   subCalls := s.subCalls ++ [(feeds, sdp, displays, userIds)],
                   subSession := some res.1,
                   phase := some (.awaitingAnswer feeds sdp) }
      | _ => s
  | .answerReady =>
      match s.phase with
      | some (.awaitingAnswer _feeds sdp) =>
          finishSync { s with sent := s.sent ++ [.subscribeAnswer (mkAnswer sdp)] }
      | _ => s
  | .syncFails =>
      match s.phase with
      | some (.awaitingOffer _) =>
          finishSync { s with outstanding := s.outstanding - 1 }
      | some (.awaitingAnswer _ _) => finishSync s
      | none => s
  | .pubJoined p =>
      callSync { s with publishers := setPub s.publishers p }
  | .pubLeft fid =>
      if s.publishers.any (fun q => q.feed_id == fid) then
        callSync { s with publishers := s.publishers.filter (fun q => q.feed_id ≠ fid),
                          remoteStreams := s.remoteStreams.filter (fun r => r.1 ≠ fid) }
      else s
  | .streamArrives fid stream =>
      { s with remoteStreams :=
          (s.remoteStreams.filter (fun r => r.1 ≠ fid)) ++ [(fid, stream)] }

/-- Initial orchestrator state: joined, channel connected, no sync in
flight. -/
def oInit : OState :=
  { publishers := [], userId := "me", isJoined := true, connected := true,
    inProgress := false, pendingFlag := false, phase := none,
    outstanding := 0, sent := [], cleanups := 0, remoteStreams := [],
    subSession := none, syncStarts := 0, subCalls := [] }

def runO (events : List OEvent) : OState :=
  events.foldl oStep oInit

/-- Orchestrator invariant: the session stays joined and connected, the
single-flight flag is set exactly while the sync coroutine is suspended,
and a subscribe request is outstanding exactly while the sync awaits its
offer. -/
def OInv (s : OState) : Prop :=
  s.isJoined = true ∧ s.connected = true
  ∧ (s.inProgress = true ↔ s.phase ≠ none)
  ∧ s.outstanding = (match s.phase with
      | some (SyncPhase.awaitingOffer _) => 1
      | _ => 0)

end Orch

namespace Publisher

/-! ## Publisher session and the screen-share handoff
(`useWebRtcPublisher.ts`, `startScreenShare` in the room store;
claims C6 and C7) -/

/-- A media track kind. -/
inductive Kind
  | audio
  | video
deriving DecidableEq, Repr

/-- A `MediaStreamTrack`: its kind and an opaque identity. -/
structure Track where
  kind : Kind
  tid : Nat
deriving DecidableEq, Repr

/-- The result object of the result-reporting `replaceTrack` variant, as
the orchestrator reads it (`res.replacedExisting` / `res.addedNew`). -/
structure ReplaceResult where
  replacedExisting : Bool
  addedNew : Bool
deriving DecidableEq, Repr

/-- An `RTCRtpSender` holding its current track. -/
structure Sender where
  track : Track
deriving DecidableEq, Repr

/-- Modelled from the spec: the result-reporting `replaceTrack(newTrack)`
variant consumed by the room store's `startScreenShare` (absent from
`src/`, which carries only an older void-returning variant): "finds the
existing sender whose current track kind matches and swaps its track in
place; reports whether an existing sender was replaced versus no
matching sender was found" — in the latter case the track is attached as
a brand-new sender and `addedNew` signals the renegotiation fallback. -/
def replaceTrack : List Sender → Track → List Sender × ReplaceResult
  | [], t => ([⟨t⟩], ⟨false, true⟩)
  | s :: rest, t =>
      if s.track.kind = t.kind then (⟨t⟩ :: rest, ⟨true, false⟩)
      else
        let r := replaceTrack rest t
        (s :: r.1, r.2)

/-- Observable operations `startScreenShare` and `startPublishing`
perform, in order. -/
inductive Op
  | replaceT (k : Kind)
  | stopPub
  | clearSelfPublishing
  | publishOffer
deriving DecidableEq, Repr

/-- The world the screen-share orchestration manipulates: the publisher
session, the self participant's publishing flag, the screen-share flags
and an operation log. -/
structure World where
  senders : List Sender
  pubInitialized : Bool
  pubPublishing : Bool
  selfPublishing : Bool
  isScreenSharing : Bool
  isScreenShareAudio : Bool
  localTracks : List Track
  screenTracks : List Track
  freshCtr : Nat
  ops : List Op
deriving DecidableEq, Repr

/-- `publisher.replaceTrack(t)` at an orchestrator call site: swap in the
publisher session and log the call. -/
def doReplace (w : World) (t : Track) : World × ReplaceResult :=
  let r := replaceTrack w.senders t
  ({ w with senders := r.1, ops := w.ops ++ [.replaceT t.kind] }, r.2)

/-- `publisher.stop()`: stops local tracks, closes the peer connection,
resets all publisher state. -/
def pubStop (w : World) : World :=
  { w with senders := [], pubInitialized := false, pubPublishing := false,
           localTracks := [], ops := w.ops ++ [.stopPub] }

/-- `startPublishing()` (successful run, essential steps): initialize a
fresh peer connection, capture local media with the default constraints
(audio and video), attach every captured track, negotiate one
`publish_offer` request, apply the answer and mark self as publishing. -/
def startPublishing (w : World) : World :=
  let aud : Track := ⟨.audio, w.freshCtr⟩
  let vid : Track := ⟨.video, w.freshCtr + 1⟩
  { w with senders := [⟨aud⟩, ⟨vid⟩], pubInitialized := true,
           localTracks := [aud, vid], freshCtr := w.freshCtr + 2,
           pubPublishing := true, selfPublishing := true,
           ops := w.ops ++ [.publishOffer] }

/-- `startScreenShare()` (happy path) with screen video track `sv` and
optional screen audio track `sa`, following the room store: replace the
outgoing video track; if the screen stream carries audio, try to replace
the audio track; when no audio sender could be reused (`addedNew`), run
the restart fallback: stop the publisher, clear the self participant's
publishing flag, `startPublishing()` again, then re-apply the screen
video and audio tracks; finally install the screen stream as local
preview and set the sharing flags. -/
def startScreenShare (w : World) (sv : Track) (sa : Option Track) : World :=
  if w.isScreenSharing then w
  else if !w.pubPublishing then w
  else
    let r1 := doReplace w sv
    let w1 := r1.1
    let w2 :=
      match sa with
      | none => { w1 with isScreenShareAudio := false }
      | some a =>
          let r2 := doReplace w1 a
          let wa := r2.1
          if r2.2.replacedExisting then { wa with isScreenShareAudio := true }
          else if r2.2.addedNew then
            let wb := pubStop { wa with isScreenShareAudio := false }
            let wc : World := { wb with selfPublishing := false,
                                        ops := wb.ops ++ [Op.clearSelfPublishing] }
            let wd := startPublishing wc
            let r3 := doReplace wd sv
            let r4 := doReplace r3.1 a
            let we :=
              if r4.2.replacedExisting then
                { r4.1 with isScreenShareAudio := true }
              else r4.1
            { we with screenTracks := [sv, a], localTracks := [sv, a],
                      isScreenSharing := true }
          else wa
    { w2 with screenTracks := sv :: sa.toList,
              localTracks := sv :: sa.toList, isScreenSharing := true }

end Publisher

namespace Subscriber

/-! ## Subscriber track aggregation (claim C8)

Both subscriber variants aggregate incoming tracks of a feed into one
`MediaStream` inside `pc.ontrack`.  The variant in `part_008` skips
tracks whose id is already present; the variant in `part_009` calls
`MediaStream.addTrack` unconditionally, which by DOM semantics is a
no-op when the very same track object is already in the stream.  A track
is modelled by its object identity `oid` and its id `tid`. -/

structure RTrack where
  oid : Nat
  tid : String
deriving DecidableEq, Repr

/-- DOM `MediaStream.addTrack`: no-op when the same track object is
already present, otherwise appends. -/
def addTrackDom (s : List RTrack) (t : RTrack) : List RTrack :=
  if s.any (fun u => u.oid == t.oid) then s else s ++ [t]

/-- The `ontrack` handler of the `part_008` subscriber: skip when a
track with the same id is already in the stream, else `addTrack`. -/
def ontrackDedup (s : List RTrack) (t : RTrack) : List RTrack :=
  if s.any (fun u => u.tid == t.tid) then s else addTrackDom s t

/-- The `ontrack` handler of the `part_009` subscriber: unconditional
`addTrack`. -/
def ontrackPlain (s : List RTrack) (t : RTrack) : List RTrack :=
  addTrackDom s t

/-- No two tracks of the stream share a track id. -/
def noDupIds (s : List RTrack) : Prop :=
  (s.map RTrack.tid).Nodup

/-- The browser guarantee relating track objects and track ids within
one peer connection: a `MediaStreamTrack`'s id is immutable and two
track objects never share an id. -/
def consistent (ts : List RTrack) : Prop :=
  ∀ t ∈ ts, ∀ u ∈ ts, (t.oid = u.oid ↔ t.tid = u.tid)

end Subscriber

/-! # Theorems -/

namespace Signaling

/-- C4: for five consecutive abnormal closures with
`INITIAL_BACKOFF = 1000`, the scheduled reconnect delays are exactly
1000, 2000, 4000, 8000, 16000 ms, each computed as
`min(1000 * 2^attempt, 30000)`; a sixth abnormal closure schedules no
further reconnect; and a successful open resets the attempt counter to
zero. -/
theorem reconnectBackoff :
    (runCh (List.replicate 5 (ChEvent.wsClose 1006))).delays
        = [1000, 2000, 4000, 8000, 16000]
  ∧ (runCh (List.replicate 5 (ChEvent.wsClose 1006))).delays
        = (List.range 5).map (fun k => min (1000 * 2 ^ k) 30000)
  ∧ (runCh (List.replicate 6 (ChEvent.wsClose 1006))).delays
        = [1000, 2000, 4000, 8000, 16000]
  ∧ (chStep (runCh (List.replicate 5 (ChEvent.wsClose 1006))) ChEvent.wsOpen).st.attempts
        = 0 :=
  ⟨by decide, by decide, by decide, by decide⟩

/-- C5, counterexample: with two requests pending, an abnormal close
(code 1006) rejects neither of them — the claimed rejection with
`Disconnected` does not happen (only the reconnect is scheduled). -/
theorem abnormalClose_cex :
    ¬ c5ClaimAt [ChEvent.sendReq 0, ChEvent.sendReq 1, ChEvent.wsClose 1006]
        [0, 1] := by
  unfold c5ClaimAt
  decide

/-- C5, amended: when the socket closes abnormally (code ≠ 1000) and
fewer than five reconnect attempts were made, a reconnect is scheduled
with the exponential-backoff delay, but the pending requests are not
rejected — they stay pending untouched; each of them is rejected with
the Disconnected error only by a `disconnect()` call, or with a timeout
error when its own 30 s timer fires. -/
theorem abnormalCloseBehavior (r : ChRun) (code : Nat)
    (hcode : code ≠ 1000) (hatt : r.st.attempts < 5) :
    (chStep r (ChEvent.wsClose code)).delays
        = r.delays ++ [backoffDelay r.st.attempts]
  ∧ (chStep r (ChEvent.wsClose code)).st.reconnectDelay
        = some (backoffDelay r.st.attempts)
  ∧ (chStep r (ChEvent.wsClose code)).st.pending = r.st.pending
  ∧ (chStep r (ChEvent.wsClose code)).log = r.log
  ∧ (∀ id ∈ r.st.pending,
      (chStep r ChEvent.disconnect).log.any
        (fun p => p.2 = MOp.settle id Outcome.disconnected) = true)
  ∧ (∀ id ∈ r.st.pending,
      (chStep r (ChEvent.timerFire id)).log.any
        (fun p => p.2 = MOp.settle id Outcome.timedOut) = true) := by
  refine ⟨?_, ?_, ?_, ?_, ?_, ?_⟩
  · simp [chStep, hcode, hatt]
  · simp [chStep, hcode, hatt]
  · simp [chStep, hcode, hatt]
  · simp [chStep, hcode, hatt]
  · intro id hid
    simp only [chStep, List.any_eq_true]
    refine ⟨(r.evIx, MOp.settle id Outcome.disconnected), ?_, by simp⟩
    refine List.mem_append_right _ (List.mem_map.mpr ?_)
    refine ⟨MOp.settle id Outcome.disconnected, ?_, rfl⟩
    refine List.mem_append_left _ (List.mem_flatten.mpr ?_)
    exact ⟨[MOp.clearTimer id, MOp.settle id Outcome.disconnected],
      List.mem_map.mpr ⟨id, hid, rfl⟩, by simp⟩
  · intro id hid
    simp [chStep, hid]

/-- C5, witness for `abnormalCloseBehavior` at a concrete run with two
pending requests and close code 1006. -/
theorem abnormalCloseBehavior_witness :
    ((chStep (runCh [ChEvent.sendReq 0, ChEvent.sendReq 1]) (ChEvent.wsClose 1006)).st.pending
        = (runCh [ChEvent.sendReq 0, ChEvent.sendReq 1]).st.pending)
  ∧ ((chStep (runCh [ChEvent.sendReq 0, ChEvent.sendReq 1]) (ChEvent.wsClose 1006)).delays
        = (runCh [ChEvent.sendReq 0, ChEvent.sendReq 1]).delays ++ [1000]) := by
  have h := abnormalCloseBehavior (runCh [ChEvent.sendReq 0, ChEvent.sendReq 1]) 1006
    (by decide) (by decide)
  exact ⟨h.2.2.1, h.1⟩

theorem settles_append (l₁ l₂ : List (Nat × MOp)) (id : Nat) :
    settles (l₁ ++ l₂) id = settles l₁ id + settles l₂ id :=
  List.countP_append _ _ _

theorem settles_map_removes (k : Nat) (pend : List Nat) (id : Nat) :
    settles ((pend.map MOp.remove).map (fun o => (k, o))) id = 0 := by
  induction pend with
  | nil => simp [settles]
  | cons p rest ih =>
      simp only [List.map_cons, settles, List.countP_cons] at *
      simp [isSettleOf, ih]

theorem settles_flattenBlock (k : Nat) (pend : List Nat) (id : Nat) :
    settles (((pend.map (fun i =>
        [MOp.clearTimer i, MOp.settle i Outcome.disconnected])).flatten).map
          (fun o => (k, o))) id
      = pend.count id := by
  induction pend with
  | nil => simp [settles]
  | cons p rest ih =>
      simp only [List.map_cons, List.flatten_cons, List.map_append]
      rw [settles_append, List.count_cons, ih]
      by_cases hp : p = id
      · subst hp
        simp [settles, isSettleOf, List.countP_cons]
        omega
      · have hb : (p == id) = false := by simp [hp]
        simp [settles, isSettleOf, List.countP_cons, hb, hp]

theorem settles_of_discBlock (k : Nat) (pend : List Nat) (id : Nat) :
    settles (((pend.map (fun i => [MOp.clearTimer i, MOp.settle i Outcome.disconnected])).flatten
        ++ pend.map MOp.remove).map (fun o => (k, o))) id
      = pend.count id := by
  rw [List.map_append, settles_append, settles_flattenBlock, settles_map_removes]
  omega

theorem settle_mem_discBlock {k k₀ : Nat} {pend : List Nat} {id : Nat} {o : Outcome}
    (h : (k₀, MOp.settle id o)
        ∈ ((pend.map (fun i => [MOp.clearTimer i, MOp.settle i Outcome.disconnected])).flatten
            ++ pend.map MOp.remove).map (fun o => (k, o))) :
    k₀ = k ∧ id ∈ pend := by
  rcases List.mem_map.mp h with ⟨op, hop, heq⟩
  obtain ⟨hk, hopv⟩ : k = k₀ ∧ op = MOp.settle id o := by
    constructor
    · exact congrArg Prod.fst heq
    · exact congrArg Prod.snd heq
  subst hopv
  refine ⟨hk.symm, ?_⟩
  rcases List.mem_append.mp hop with hleft | hright
  · rcases List.mem_flatten.mp hleft with ⟨l, hl, hmem⟩
    rcases List.mem_map.mp hl with ⟨i, hi, rfl⟩
    simp only [List.mem_cons, List.mem_singleton] at hmem
    rcases hmem with h1 | h2
    · exact absurd h1 (by simp)
    · rcases h2 with h2 | h2
      · cases h2
        exact hi
      · simp at h2
  · rcases List.mem_map.mp hright with ⟨i, _, hiv⟩
    simp at hiv

theorem chInv_step (r : ChRun) (e : ChEvent) (hinv : ChInv r) :
    ChInv (chStep r e) := by
  obtain ⟨hnd, hpu, hp0, hle, hu0, hpair⟩ := hinv
  cases e with
  | sendReq id0 =>
      cases hg : (r.st.connected && !r.st.used.contains id0) with
      | true =>
          have hg2 : r.st.connected = true ∧ id0 ∉ r.st.used := by
            simpa using hg
          have hnu : id0 ∉ r.st.used := hg2.2
          have hnp : id0 ∉ r.st.pending := fun hmem => hnu (hpu id0 hmem)
          have hstep : chStep r (ChEvent.sendReq id0)
              = { st := { r.st with pending := r.st.pending ++ [id0],
                                    used := r.st.used ++ [id0] },
                  log := r.log ++ [(r.evIx, MOp.setTimer id0)],
                  delays := r.delays, evIx := r.evIx + 1 } := by
            simp only [chStep]
            rw [hg]
            simp
          rw [hstep]
          have hz : ∀ id, settles (r.log ++ [(r.evIx, MOp.setTimer id0)]) id
              = settles r.log id := by
            intro id
            rw [settles_append]
            simp [settles, isSettleOf]
          refine ⟨?_, ?_, ?_, ?_, ?_, ?_⟩
          · simpa [List.nodup_append] using ⟨hnd, hnp⟩
          · intro id hid
            rcases List.mem_append.mp hid with h | h
            · exact List.mem_append_left _ (hpu id h)
            · exact List.mem_append_right _ h
          · intro id hid
            rcases List.mem_append.mp hid with h | h
            · rw [hz, hp0 id h]
            · simp only [List.mem_singleton] at h
              subst h
              rw [hz, hu0 id hnu]
          · intro id
            rw [hz]
            exact hle id
          · intro id hid
            have hid' : id ∉ r.st.used := fun h => hid (List.mem_append_left _ h)
            rw [hz, hu0 id hid']
          · intro k id o hm
            rcases List.mem_append.mp hm with h | h
            · exact List.mem_append_left _ (hpair k id o h)
            · simp at h
      | false =>
          have hstep : chStep r (ChEvent.sendReq id0)
              = { st := r.st, log := r.log, delays := r.delays,
                  evIx := r.evIx + 1 } := by
            simp only [chStep]
            rw [hg]
            simp
          rw [hstep]
          exact ⟨hnd, hpu, hp0, hle, hu0, hpair⟩
  | frame id0 isError msg =>
      by_cases hmem : id0 ∈ r.st.pending
      · have hstep : chStep r (ChEvent.frame id0 isError msg)
            = { st := { r.st with pending := r.st.pending.erase id0 },
                log := r.log ++ [(r.evIx, MOp.clearTimer id0),
                  (r.evIx, MOp.remove id0),
                  (r.evIx, MOp.settle id0
                    (if isError then Outcome.serverError msg else Outcome.resolved))],
                delays := r.delays, evIx := r.evIx + 1 } := by
          simp [chStep, hmem]
        rw [hstep]
        have hcnt : ∀ id, settles [(r.evIx, MOp.clearTimer id0),
            (r.evIx, MOp.remove id0),
            (r.evIx, MOp.settle id0
              (if isError then Outcome.serverError msg else Outcome.resolved))] id
            = if id0 = id then 1 else 0 := by
          intro id
          by_cases h : id0 = id <;>
            simp [settles, isSettleOf, List.countP_cons, h]
        refine ⟨hnd.erase id0, ?_, ?_, ?_, ?_, ?_⟩
        · intro id hid
          exact hpu id (List.mem_of_mem_erase hid)
        · intro id hid
          have hne : id ≠ id0 := by
            intro hcontra
            subst hcontra
            exact (List.Nodup.not_mem_erase hnd) hid
          rw [settles_append, hcnt id, if_neg (fun h => hne h.symm),
            hp0 id (List.mem_of_mem_erase hid)]
        · intro id
          rw [settles_append, hcnt id]
          by_cases h : id0 = id
          · subst h
            rw [hp0 id0 hmem]
            simp
          · rw [if_neg h]
            simpa using hle id
        · intro id hid
          have hne : id0 ≠ id := by
            intro hcontra
            subst hcontra
            exact hid (hpu id0 hmem)
          rw [settles_append, hcnt id, if_neg hne, hu0 id hid]
        · intro k id o hm
          rcases List.mem_append.mp hm with h | h
          · exact List.mem_append_left _ (hpair k id o h)
          · simp only [List.mem_cons, List.mem_singleton] at h
            rcases h with h | h | h | h
            · exact absurd (congrArg Prod.snd h) (by simp)
            · exact absurd (congrArg Prod.snd h) (by simp)
            · have hk : k = r.evIx := congrArg Prod.fst h
              have hid : id0 = id := by
                have h2 := congrArg Prod.snd h
                simp only at h2
                cases h2
                rfl
              subst hk hid
              refine List.mem_append_right _ ?_
              simp
            · simp at h
      · have hstep : chStep r (ChEvent.frame id0 isError msg)
            = { st := r.st, log := r.log, delays := r.delays,
                evIx := r.evIx + 1 } := by
          simp [chStep, hmem]
        rw [hstep]
        exact ⟨hnd, hpu, hp0, hle, hu0, hpair⟩
  | timerFire id0 =>
      by_cases hmem : id0 ∈ r.st.pending
      · have hstep : chStep r (ChEvent.timerFire id0)
            = { st := { r.st with pending := r.st.pending.erase id0 },
                log := r.log ++ [(r.evIx, MOp.remove id0),
                  (r.evIx, MOp.settle id0 Outcome.timedOut)],
                delays := r.delays, evIx := r.evIx + 1 } := by
          simp [chStep, hmem]
        rw [hstep]
        have hcnt : ∀ id, settles [(r.evIx, MOp.remove id0),
            (r.evIx, MOp.settle id0 Outcome.timedOut)] id
            = if id0 = id then 1 else 0 := by
          intro id
          by_cases h : id0 = id <;>
            simp [settles, isSettleOf, List.countP_cons, h]
        refine ⟨hnd.erase id0, ?_, ?_, ?_, ?_, ?_⟩
        · intro id hid
          exact hpu id (List.mem_of_mem_erase hid)
        · intro id hid
          have hne : id ≠ id0 := by
            intro hcontra
            subst hcontra
            exact (List.Nodup.not_mem_erase hnd) hid
          rw [settles_append, hcnt id, if_neg (fun h => hne h.symm),
            hp0 id (List.mem_of_mem_erase hid)]
        · intro id
          rw [settles_append, hcnt id]
          by_cases h : id0 = id
          · subst h
            rw [hp0 id0 hmem]
            simp
          · rw [if_neg h]
            simpa using hle id
        · intro id hid
          have hne : id0 ≠ id := by
            intro hcontra
            subst hcontra
            exact hid (hpu id0 hmem)
          rw [settles_append, hcnt id, if_neg hne, hu0 id hid]
        · intro k id o hm
          rcases List.mem_append.mp hm with h | h
          · exact List.mem_append_left _ (hpair k id o h)
          · simp only [List.mem_cons, List.mem_singleton] at h
            rcases h with h | h | h
            · exact absurd (congrArg Prod.snd h) (by simp)
            · have hk : k = r.evIx := congrArg Prod.fst h
              have hid : id0 = id := by
                have h2 := congrArg Prod.snd h
                simp only at h2
                cases h2
                rfl
              subst hk hid
              refine List.mem_append_right _ ?_
              simp
            · simp at h
      · have hstep : chStep r (ChEvent.timerFire id0)
            = { st := r.st, log := r.log, delays := r.delays,
                evIx := r.evIx + 1 } := by
          simp [chStep, hmem]
        rw [hstep]
        exact ⟨hnd, hpu, hp0, hle, hu0, hpair⟩
  | wsClose code =>
      cases hg : (decide (code ≠ 1000) && decide (r.st.attempts < 5)) with
      | true =>
          have hstep : chStep r (ChEvent.wsClose code)
              = { st := { r.st with connected := false,
                                    attempts := r.st.attempts + 1,
                                    reconnectDelay := some (backoffDelay r.st.attempts) },
                  log := r.log,
                  delays := r.delays ++ [backoffDelay r.st.attempts],
                  evIx := r.evIx + 1 } := by
            simp only [chStep]
            rw [hg]
            simp
          rw [hstep]
          exact ⟨hnd, hpu, hp0, hle, hu0, hpair⟩
      | false =>
          have hstep : chStep r (ChEvent.wsClose code)
              = { st := { r.st with connected := false },
                  log := r.log, delays := r.delays, evIx := r.evIx + 1 } := by
            simp only [chStep]
            rw [hg]
            simp
          rw [hstep]
          exact ⟨hnd, hpu, hp0, hle, hu0, hpair⟩
  | wsOpen =>
      have hstep : chStep r ChEvent.wsOpen
          = { st := { r.st with connected := true, attempts := 0 },
              log := r.log, delays := r.delays, evIx := r.evIx + 1 } := by
        simp [chStep]
      rw [hstep]
      exact ⟨hnd, hpu, hp0, hle, hu0, hpair⟩
  | disconnect =>
      have hstep : chStep r ChEvent.disconnect
          = { st := { r.st with pending := [], reconnectDelay := none,
                                connected := false },
              log := r.log
                ++ ((r.st.pending.map (fun i =>
                      [MOp.clearTimer i, MOp.settle i Outcome.disconnected])).flatten
                    ++ r.st.pending.map MOp.remove).map (fun o => (r.evIx, o)),
              delays := r.delays, evIx := r.evIx + 1 } := by
        simp [chStep]
      rw [hstep]
      refine ⟨List.nodup_nil, by simp, by simp, ?_, ?_, ?_⟩
      · intro id
        rw [settles_append, settles_of_discBlock]
        by_cases h : id ∈ r.st.pending
        · rw [hp0 id h, List.count_eq_one_of_mem hnd h]
        · rw [List.count_eq_zero_of_not_mem h]
          simpa using hle id
      · intro id hid
        have hnp : id ∉ r.st.pending := fun h => hid (hpu id h)
        rw [settles_append, settles_of_discBlock,
          List.count_eq_zero_of_not_mem hnp, hu0 id hid]
      · intro k id o hm
        rcases List.mem_append.mp hm with h | h
        · exact List.mem_append_left _ (hpair k id o h)
        · obtain ⟨hk, hmem⟩ := settle_mem_discBlock h
          subst hk
          refine List.mem_append_right _ (List.mem_map.mpr ?_)
          refine ⟨MOp.remove id, ?_, rfl⟩
          exact List.mem_append_right _ (List.mem_map.mpr ⟨id, hmem, rfl⟩)

theorem chInv_run (events : List ChEvent) : ChInv (runCh events) := by
  have hgen : ∀ (l : List ChEvent) (r : ChRun), ChInv r → ChInv (l.foldl chStep r) := by
    intro l
    induction l with
    | nil => intro r h; exact h
    | cons e rest ih =>
        intro r h
        exact ih (chStep r e) (chInv_step r e h)
  refine hgen events chInit ?_
  refine ⟨List.nodup_nil, by simp [chInit], by simp [chInit], ?_, ?_, ?_⟩
  · intro id
    simp [chInit, settles]
  · intro id _
    simp [chInit, settles]
  · intro k id o h
    simp [chInit] at h

end Signaling

namespace Signaling

/-- C3, counterexample: on the trace "send request 0, then
`disconnect()`", the micro-op log rejects the pending request before its
map entry is removed (the source's `disconnect` runs `pending.reject`
inside the `forEach` and only afterwards `pendingRequests.clear()`), so
the claimed removal-before-settlement order does not hold on the
disconnect path. -/
theorem settleOrder_cex :
    removeBeforeSettle [] (runCh [ChEvent.sendReq 0, ChEvent.disconnect]).log
      = false := by
  decide

/-- C3, amended: every `sendRequest` settles at most once and never
settles after its pending entry has been removed — every settlement is
performed by the same event-loop turn that removes the entry, and a
frame or timer for an id no longer pending settles nothing.  In the
response path the entry is deleted (and its timeout cleared) before the
promise settles — an `error` frame rejecting with the server-supplied
message, any other matching frame resolving — and likewise in the
timeout path; in the `disconnect()` path each pending request is
rejected first and the map is cleared at the end of the same handler. -/
theorem requestSettlement :
    (∀ events id, settles (runCh events).log id ≤ 1)
  ∧ (∀ events k id o, (k, MOp.settle id o) ∈ (runCh events).log →
      (k, MOp.remove id) ∈ (runCh events).log)
  ∧ (∀ (r : ChRun) id msg, id ∈ r.st.pending →
      (chStep r (ChEvent.frame id true msg)).log
        = r.log ++ [(r.evIx, MOp.clearTimer id), (r.evIx, MOp.remove id),
            (r.evIx, MOp.settle id (Outcome.serverError msg))])
  ∧ (∀ (r : ChRun) id msg, id ∈ r.st.pending →
      (chStep r (ChEvent.frame id false msg)).log
        = r.log ++ [(r.evIx, MOp.clearTimer id), (r.evIx, MOp.remove id),
            (r.evIx, MOp.settle id Outcome.resolved)])
  ∧ (∀ (r : ChRun) id, id ∈ r.st.pending →
      (chStep r (ChEvent.timerFire id)).log
        = r.log ++ [(r.evIx, MOp.remove id), (r.evIx, MOp.settle id Outcome.timedOut)])
  ∧ (∀ (r : ChRun) id isError msg, id ∉ r.st.pending →
      (chStep r (ChEvent.frame id isError msg)).log = r.log
        ∧ (chStep r (ChEvent.timerFire id)).log = r.log) := by
  refine ⟨?_, ?_, ?_, ?_, ?_, ?_⟩
  · intro events id
    exact (chInv_run events).2.2.2.1 id
  · intro events k id o h
    exact (chInv_run events).2.2.2.2.2 k id o h
  · intro r id msg hmem
    simp [chStep, hmem]
  · intro r id msg hmem
    simp [chStep, hmem]
  · intro r id hmem
    simp [chStep, hmem]
  · intro r id isError msg hmem
    constructor <;> simp [chStep, hmem]

/-- C3, witness for `requestSettlement` at concrete runs: request 0 is
settled exactly once on a response trace, an error frame's settlement is
the server-message rejection, and a frame for an unknown id leaves the
log unchanged. -/
theorem requestSettlement_witness :
    settles (runCh [ChEvent.sendReq 0, ChEvent.frame 0 false "", ChEvent.frame 0 false ""]).log 0 ≤ 1
  ∧ (chStep (runCh [ChEvent.sendReq 0]) (ChEvent.frame 0 true "boom")).log
      = (runCh [ChEvent.sendReq 0]).log
        ++ [((runCh [ChEvent.sendReq 0]).evIx, MOp.clearTimer 0),
            ((runCh [ChEvent.sendReq 0]).evIx, MOp.remove 0),
            ((runCh [ChEvent.sendReq 0]).evIx, MOp.settle 0 (Outcome.serverError "boom"))]
  ∧ (chStep (runCh []) (ChEvent.frame 7 true "x")).log = (runCh []).log := by
  refine ⟨?_, ?_, ?_⟩
  · exact requestSettlement.1 [ChEvent.sendReq 0, ChEvent.frame 0 false "", ChEvent.frame 0 false ""] 0
  · exact requestSettlement.2.2.1 (runCh [ChEvent.sendReq 0]) 0 "boom" (by decide)
  · exact (requestSettlement.2.2.2.2.2 (runCh []) 7 true "x" (by decide)).1

end Signaling

namespace Publisher

/-- C6: `replaceTrack` finds the existing sender whose current track
kind matches and swaps its track in place, and its result reports
(`replacedExisting` versus `addedNew`, the fields the orchestrator
reads) whether an existing sender was replaced versus no matching
sender being found. -/
theorem replaceTrack_reports (ss : List Sender) (t : Track) :
    ((replaceTrack ss t).2.replacedExisting
        = ss.any (fun s => s.track.kind == t.kind))
  ∧ ((replaceTrack ss t).2.addedNew
        = !ss.any (fun s => s.track.kind == t.kind))
  ∧ ((replaceTrack ss t).1
        = match ss.findIdx? (fun s => s.track.kind == t.kind) with
          | some i => ss.set i ⟨t⟩
          | none => ss ++ [⟨t⟩]) := by
  induction ss with
  | nil => simp [replaceTrack]
  | cons s rest ih =>
      by_cases h : s.track.kind = t.kind
      · simp [replaceTrack, h, List.findIdx?_cons]
      · have hb : (s.track.kind == t.kind) = false := by
          simp [h]
        refine ⟨?_, ?_, ?_⟩
        · simp [replaceTrack, h, hb, ih.1]
        · simp [replaceTrack, h, hb, ih.2.1]
        · simp only [replaceTrack, if_neg h, List.findIdx?_cons, hb,
            Bool.false_eq_true, if_false, List.any_cons, Bool.false_or]
          rw [ih.2.2]
          cases hfi : rest.findIdx? (fun s => s.track.kind == t.kind) <;>
            simp [hfi]

end Publisher



namespace Signaling

theorem runHandlers_ok (hs : List Handler)
    (h : hs.all (fun g => !g.throws) = true) :
    runHandlers hs = (hs.map Handler.hid, false) := by
  induction hs with
  | nil => simp [runHandlers]
  | cons a rest ih =>
      simp only [List.all_cons, Bool.and_eq_true] at h
      have ha : a.throws = false := by simpa using h.1
      simp [runHandlers, ha, ih h.2]

theorem runHandlers_throw (pre : List Handler) (h : Handler)
    (rest : List Handler)
    (hpre : pre.all (fun g => !g.throws) = true) (hth : h.throws = true) :
    runHandlers (pre ++ h :: rest) = (pre.map Handler.hid ++ [h.hid], true) := by
  induction pre with
  | nil => simp [runHandlers, hth]
  | cons a p ih =>
      simp only [List.all_cons, Bool.and_eq_true] at hpre
      have ha : a.throws = false := by simpa using hpre.1
      simp [runHandlers, ha, ih hpre.2]

/-- C9, counterexample: with two handlers registered for a type, the
first one throwing, the dispatch invokes only the first — the exception
aborts the `forEach`, so the second handler is never invoked, contrary
to the claim that a failure in one handler does not prevent the
remaining handlers from running. -/
theorem handlerDispatch_cex :
    ¬ (dispatch [⟨0, true⟩, ⟨1, false⟩] []
        = ([⟨0, true⟩, ⟨1, false⟩] : List Handler).map Handler.hid
          ++ ([] : List Handler).map Handler.hid) := by
  decide

/-- C9, amended: for a non-correlated message, the type-specific
handlers run in registration order and the wildcard handlers
additionally run after them; when no handler throws, every registered
handler is invoked.  But an exception thrown by one handler aborts the
dispatch: the remaining handlers of that type and all wildcard handlers
are skipped (the exception is swallowed by `handleMessage`'s catch);
likewise a throwing wildcard handler aborts the remaining wildcard
handlers. -/
theorem handlerDispatch :
    (∀ ths whs : List Handler,
      (ths ++ whs).all (fun g => !g.throws) = true →
      dispatch ths whs = ths.map Handler.hid ++ whs.map Handler.hid)
  ∧ (∀ (pre : List Handler) (h : Handler) (rest whs : List Handler),
      pre.all (fun g => !g.throws) = true → h.throws = true →
      dispatch (pre ++ h :: rest) whs = pre.map Handler.hid ++ [h.hid])
  ∧ (∀ (ths pre : List Handler) (h : Handler) (rest : List Handler),
      ths.all (fun g => !g.throws) = true →
      pre.all (fun g => !g.throws) = true → h.throws = true →
      dispatch ths (pre ++ h :: rest)
        = ths.map Handler.hid ++ pre.map Handler.hid ++ [h.hid]) := by
  refine ⟨?_, ?_, ?_⟩
  · intro ths whs hall
    simp only [List.all_append, Bool.and_eq_true] at hall
    simp [dispatch, runHandlers_ok ths hall.1, runHandlers_ok whs hall.2]
  · intro pre h rest whs hpre hth
    simp [dispatch, runHandlers_throw pre h rest hpre hth]
  · intro ths pre h rest hths hpre hth
    simp [dispatch, runHandlers_ok ths hths,
      runHandlers_throw pre h rest hpre hth]

/-- C9, witness for `handlerDispatch`: a throwless dispatch invokes all
handlers in registration order (wildcards after type handlers), and the
second type handler throwing cuts the invocation list short. -/
theorem handlerDispatch_witness :
    dispatch [⟨0, false⟩, ⟨1, false⟩] [⟨2, false⟩] = [0, 1, 2]
  ∧ dispatch [⟨0, false⟩, ⟨1, true⟩, ⟨2, false⟩] [⟨3, false⟩] = [0, 1] := by
  constructor
  · have h := handlerDispatch.1 [⟨0, false⟩, ⟨1, false⟩] [⟨2, false⟩] (by decide)
    simpa using h
  · have h := handlerDispatch.2.1 [⟨0, false⟩] ⟨1, true⟩ [⟨2, false⟩]
      [⟨3, false⟩] (by decide) (by decide)
    simpa using h

/-- C10, counterexample: a mock `sendRequest` of type `leave` does not
reject — `handleMockRequest` answers it with a `left` response, so
`leave` is a fifth mapped type, contrary to the claim that any type
other than the four listed ones rejects. -/
theorem mockRejectMapping_cex : ¬ c10RejectsOthers := by
  intro h
  obtain ⟨m, d, hmd⟩ := h "leave" (by decide)
  have hleave : handleMockRequest "leave" = MockReply.replyOk "left" 100 := by
    decide
  rw [hleave] at hmd
  exact MockReply.noConfusion hmd

/-- C10, amended: for a url containing `localhost` or `mock`,
`connect` opens no WebSocket transport yet reports the channel
connected; every mock `sendRequest` is answered after a 100 ms delay by
an internally generated response (`join_room → joined`,
`publish_offer → publish_answer`, `subscribe → subscribe_offer`,
`leave → left`, `ping → pong`, and every other type rejects), and
`send` transmits nothing in mock mode. -/
theorem mockModeBehavior :
    (∀ (s : MState) (url : String), isMockUrl url = true →
      s.isConnected = false → s.isConnecting = false →
      connectM s url
        = { s with mockMode := true, isConnected := true,
                   isConnecting := false })
  ∧ handleMockRequest "join_room" = MockReply.replyOk "joined" 100
  ∧ handleMockRequest "publish_offer" = MockReply.replyOk "publish_answer" 100
  ∧ handleMockRequest "subscribe" = MockReply.replyOk "subscribe_offer" 100
  ∧ handleMockRequest "leave" = MockReply.replyOk "left" 100
  ∧ handleMockRequest "ping" = MockReply.replyOk "pong" 100
  ∧ (∀ t : String,
      t ∉ ["join_room", "publish_offer", "subscribe", "leave", "ping"] →
      handleMockRequest t = MockReply.replyErr ("Unknown message type: " ++ t) 100)
  ∧ (∀ (s : MState) (t : String), s.mockMode = true →
      sendRequestM s t = (s, some (handleMockRequest t)))
  ∧ (∀ (s : MState) (t : String), s.mockMode = true → sendM s t = s) := by
  refine ⟨?_, by decide, by decide, by decide, by decide, by decide, ?_, ?_, ?_⟩
  · intro s url hmock hconn hcing
    simp [connectM, hmock, hconn, hcing]
  · intro t ht
    simp only [List.mem_cons, List.not_mem_nil, or_false, not_or] at ht
    obtain ⟨h1, h2, h3, h4, h5⟩ := ht
    simp [handleMockRequest, h1, h2, h3, h4, h5]
  · intro s t hm
    simp [sendRequestM, hm]
  · intro s t hm
    simp [sendM, hm]

/-- C10, witness for `mockModeBehavior`: a localhost url connects in
mock mode without a transport, an unmapped type rejects, and mock
`sendRequest`/`send` leave the channel state untouched. -/
theorem mockModeBehavior_witness :
    connectM mInit "ws://localhost:8188/ws"
      = { mInit with mockMode := true, isConnected := true,
                     isConnecting := false }
  ∧ handleMockRequest "trickle_ice"
      = MockReply.replyErr ("Unknown message type: " ++ "trickle_ice") 100
  ∧ sendRequestM mInit "ping" = (mInit, some (handleMockRequest "ping"))
  ∧ sendM mInit "subscribe_answer" = mInit := by
  refine ⟨?_, ?_, ?_, ?_⟩
  · exact mockModeBehavior.1 mInit "ws://localhost:8188/ws" (by decide) rfl rfl
  · exact mockModeBehavior.2.2.2.2.2.2.1 "trickle_ice" (by decide)
  · exact mockModeBehavior.2.2.2.2.2.2.2.1 mInit "ping" rfl
  · exact mockModeBehavior.2.2.2.2.2.2.2.2 mInit "subscribe_answer" rfl

end Signaling

namespace Subscriber

theorem foldDedup_noDup (ts : List RTrack) :
    ∀ acc, noDupIds acc → noDupIds (ts.foldl ontrackDedup acc) := by
  induction ts with
  | nil => intro acc h; exact h
  | cons t rest ih =>
      intro acc h
      simp only [List.foldl_cons]
      apply ih
      unfold ontrackDedup addTrackDom
      by_cases h1 : acc.any (fun u => u.tid == t.tid) = true
      · simpa [h1] using h
      · simp only [Bool.not_eq_true] at h1
        simp only [h1, Bool.false_eq_true, if_false]
        by_cases h2 : acc.any (fun u => u.oid == t.oid) = true
        · simpa [h2] using h
        · simp only [Bool.not_eq_true] at h2
          simp only [h2, Bool.false_eq_true, if_false]
          have hnot : t.tid ∉ acc.map RTrack.tid := by
            intro hmem
            rcases List.mem_map.mp hmem with ⟨u, hu, htid⟩
            have : acc.any (fun u => u.tid == t.tid) = true :=
              List.any_eq_true.mpr ⟨u, hu, by simp [htid]⟩
            simp [h1] at this
          simpa [noDupIds, List.nodup_append] using
            ⟨h, fun x hx hxe => hnot (List.mem_map.mpr ⟨x, hx, hxe⟩)⟩

theorem foldPlain_noDup (P : List RTrack) (hP : consistent P) :
    ∀ (ts acc : List RTrack), (∀ u ∈ acc, u ∈ P) → (∀ u ∈ ts, u ∈ P) →
      noDupIds acc → noDupIds (ts.foldl ontrackPlain acc) := by
  intro ts
  induction ts with
  | nil => intro acc _ _ h; exact h
  | cons t rest ih =>
      intro acc haccP htsP h
      simp only [List.foldl_cons]
      have htP : t ∈ P := htsP t (by simp)
      have hrestP : ∀ u ∈ rest, u ∈ P := fun u hu => htsP u (by simp [hu])
      unfold ontrackPlain addTrackDom
      by_cases h1 : acc.any (fun u => u.oid == t.oid) = true
      · simp only [h1, if_true]
        exact ih acc haccP hrestP h
      · simp only [Bool.not_eq_true] at h1
        simp only [h1, Bool.false_eq_true, if_false]
        refine ih (acc ++ [t]) ?_ hrestP ?_
        · intro u hu
          rcases List.mem_append.mp hu with h' | h'
          · exact haccP u h'
          · simp only [List.mem_singleton] at h'
            subst h'
            exact htP
        · have hnot : t.tid ∉ acc.map RTrack.tid := by
            intro hmem
            rcases List.mem_map.mp hmem with ⟨u, hu, htid⟩
            have hoid : u.oid = t.oid := (hP u (haccP u hu) t htP).mpr htid
            have : acc.any (fun u => u.oid == t.oid) = true :=
              List.any_eq_true.mpr ⟨u, hu, by simp [hoid]⟩
            simp [h1] at this
          simpa [noDupIds, List.nodup_append] using
            ⟨h, fun x hx hxe => hnot (List.mem_map.mpr ⟨x, hx, hxe⟩)⟩

/-- C8: for every feed, however many `ontrack` events fire, the
aggregated `MediaStream` never holds two tracks with the same track id.
The `part_008` handler guarantees this for any event sequence by its
explicit id check; the `part_009` handler relies on DOM `addTrack`'s
object-identity no-op together with the browser guarantee that distinct
track objects of a peer connection never share a track id
(`consistent`). -/
theorem subscriberNoDupTrackIds :
    (∀ (init ts : List RTrack), noDupIds init →
      noDupIds (ts.foldl ontrackDedup init))
  ∧ (∀ (init ts : List RTrack), consistent (init ++ ts) → noDupIds init →
      noDupIds (ts.foldl ontrackPlain init)) := by
  constructor
  · intro init ts h
    exact foldDedup_noDup ts init h
  · intro init ts hcons h
    exact foldPlain_noDup (init ++ ts) hcons ts init
      (fun u hu => List.mem_append_left _ hu)
      (fun u hu => List.mem_append_right _ hu) h

/-- C8, witness for `subscriberNoDupTrackIds`: a sequence that
re-delivers the same track keeps both aggregated streams free of
duplicate ids. -/
theorem subscriberNoDupTrackIds_witness :
    noDupIds (([⟨0, "a"⟩, ⟨1, "b"⟩, ⟨0, "a"⟩] : List RTrack).foldl ontrackDedup [])
  ∧ noDupIds (([⟨0, "a"⟩, ⟨1, "b"⟩, ⟨0, "a"⟩] : List RTrack).foldl ontrackPlain []) := by
  constructor
  · exact subscriberNoDupTrackIds.1 [] _ (by simp [noDupIds])
  · refine subscriberNoDupTrackIds.2 [] _ ?_ (by simp [noDupIds])
    unfold consistent
    decide

end Subscriber

namespace Orch

theorem oInv_callSync (s : OState) (h : OInv s) : OInv (callSync s) := by
  obtain ⟨hj, hc, hiff, hout⟩ := h
  by_cases hip : s.inProgress = true
  · have heq : callSync s = { s with pendingFlag := true } := by
      simp [callSync, hip]
    rw [heq]
    exact ⟨hj, hc, hiff, hout⟩
  · have hip' : s.inProgress = false := by simpa using hip
    have hph : s.phase = none := by
      by_contra hne
      have hcontra := hiff.mpr hne
      rw [hip'] at hcontra
      exact absurd hcontra (by simp)
    have hcall : callSync s = startSyncBody s := by
      simp [callSync, hip', hj, hc]
    rw [hcall]
    unfold startSyncBody
    by_cases hemp : (feedsOf s).isEmpty = true
    · simp only [hemp, if_true]
      exact ⟨hj, hc, by simp [hph], hout⟩
    · simp only [hemp, Bool.false_eq_true, if_false]
      have h0 : s.outstanding = 0 := by
        simpa [hph] using hout
      exact ⟨hj, hc, by simp, by simp [h0]⟩

theorem oInv_finishSync (s : OState) (hj : s.isJoined = true)
    (hc : s.connected = true) (h0 : s.outstanding = 0) :
    OInv (finishSync s) := by
  unfold finishSync
  by_cases hpf : s.pendingFlag = true
  · simp only [hpf, if_true]
    exact oInv_callSync _ ⟨hj, hc, by simp, by simpa using h0⟩
  · have hpf' : s.pendingFlag = false := by simpa using hpf
    simp only [hpf', Bool.false_eq_true, if_false]
    exact ⟨hj, hc, by simp, by simpa using h0⟩

theorem oInv_step (s : OState) (e : OEvent) (h : OInv s) : OInv (oStep s e) := by
  obtain ⟨hj, hc, hiff, hout⟩ := h
  cases e with
  | trigger => exact oInv_callSync s ⟨hj, hc, hiff, hout⟩
  | offerArrives sdp =>
      cases hph : s.phase with
      | none =>
          simp only [oStep, hph]
          exact ⟨hj, hc, hiff, hout⟩
      | some p =>
          cases p with
          | awaitingOffer feeds =>
              have hip : s.inProgress = true := hiff.mpr (by simp [hph])
              have h1 : s.outstanding = 1 := by simpa [hph] using hout
              simp only [oStep, hph]
              exact ⟨hj, hc, by simp [hip], by simp [h1]⟩
          | awaitingAnswer feeds sdp0 =>
              simp only [oStep, hph]
              exact ⟨hj, hc, hiff, hout⟩
  | answerReady =>
      cases hph : s.phase with
      | none =>
          simp only [oStep, hph]
          exact ⟨hj, hc, hiff, hout⟩
      | some p =>
          cases p with
          | awaitingOffer feeds =>
              simp only [oStep, hph]
              exact ⟨hj, hc, hiff, hout⟩
          | awaitingAnswer feeds sdp0 =>
              simp only [oStep, hph]
              exact oInv_finishSync _ hj hc (by simpa [hph] using hout)
  | syncFails =>
      cases hph : s.phase with
      | none =>
          simp only [oStep, hph]
          exact ⟨hj, hc, hiff, hout⟩
      | some p =>
          cases p with
          | awaitingOffer feeds =>
              have h1 : s.outstanding = 1 := by simpa [hph] using hout
              simp only [oStep, hph]
              exact oInv_finishSync _ hj hc (by simp [h1])
          | awaitingAnswer feeds sdp0 =>
              simp only [oStep, hph]
              exact oInv_finishSync _ hj hc (by simpa [hph] using hout)
  | pubJoined p =>
      exact oInv_callSync _ ⟨hj, hc, hiff, hout⟩
  | pubLeft fid =>
      by_cases hmem : s.publishers.any (fun q => q.feed_id == fid) = true
      · simp only [oStep, hmem, if_true]
        exact oInv_callSync _ ⟨hj, hc, hiff, hout⟩
      · simp only [oStep, hmem, Bool.false_eq_true, if_false]
        exact ⟨hj, hc, hiff, hout⟩
  | streamArrives fid stream =>
      exact ⟨hj, hc, hiff, hout⟩

theorem oInv_run (events : List OEvent) : OInv (runO events) := by
  have hgen : ∀ (l : List OEvent) (s : OState), OInv s → OInv (l.foldl oStep s) := by
    intro l
    induction l with
    | nil => intro s h; exact h
    | cons e rest ih =>
        intro s h
        exact ih (oStep s e) (oInv_step s e h)
  exact hgen events oInit ⟨rfl, rfl, by simp [oInit], by simp [oInit]⟩

theorem startSyncBody_flag (s : OState) :
    (startSyncBody s).pendingFlag = false
  ∧ (startSyncBody s).syncStarts = s.syncStarts + 1 := by
  unfold startSyncBody
  by_cases h : (feedsOf s).isEmpty = true <;> simp [h]

/-- C1: subscription synchronization is single-flight with
pending-retry: at most one `subscribe` request is ever outstanding on
any event trace; a `syncSubscriptions()` call made while a sync is in
flight only sets the pending flag and returns immediately (so repeated
calls coalesce); and when the in-flight sync completes with the flag
set, it clears the flag and runs exactly one follow-up sync. -/
theorem syncSingleFlight :
    (∀ events, (runO events).outstanding ≤ 1)
  ∧ (∀ s : OState, s.inProgress = true →
      oStep s OEvent.trigger = { s with pendingFlag := true })
  ∧ (∀ s : OState, s.inProgress = true →
      oStep (oStep s OEvent.trigger) OEvent.trigger = oStep s OEvent.trigger)
  ∧ (∀ events feeds sdp,
      (runO events).phase = some (SyncPhase.awaitingAnswer feeds sdp) →
      (runO events).pendingFlag = true →
      (oStep (runO events) OEvent.answerReady).pendingFlag = false
        ∧ (oStep (runO events) OEvent.answerReady).syncStarts
            = (runO events).syncStarts + 1) := by
  refine ⟨?_, ?_, ?_, ?_⟩
  · intro events
    have hout := (oInv_run events).2.2.2
    rw [hout]
    cases hph : (runO events).phase with
    | none => simp
    | some p => cases p <;> simp
  · intro s h
    simp [oStep, callSync, h]
  · intro s h
    have h1 : oStep s OEvent.trigger = { s with pendingFlag := true } := by
      simp [oStep, callSync, h]
    rw [h1]
    simp [oStep, callSync, h]
  · intro events feeds sdp hph hpf
    obtain ⟨hj, hc, hiff, hout⟩ := oInv_run events
    have hstep : oStep (runO events) OEvent.answerReady
        = finishSync { runO events with
            sent := (runO events).sent ++ [Wire.subscribeAnswer (mkAnswer sdp)] } := by
      simp [oStep, hph]
    rw [hstep]
    unfold finishSync
    rw [if_pos (by simpa using hpf)]
    have hcall : callSync { runO events with
        sent := (runO events).sent ++ [Wire.subscribeAnswer (mkAnswer sdp)],
        inProgress := false, phase := none, pendingFlag := false }
      = startSyncBody { runO events with
          sent := (runO events).sent ++ [Wire.subscribeAnswer (mkAnswer sdp)],
          inProgress := false, phase := none, pendingFlag := false } := by
      simp [callSync, hj, hc]
    rw [hcall]
    exact ⟨(startSyncBody_flag _).1, (startSyncBody_flag _).2⟩

/-- C1, witness for `syncSingleFlight`: a trace where a publisher joins
(starting a sync), the offer arrives, and a further trigger lands while
the sync is in flight; the completion then clears the flag and starts
exactly one follow-up sync. -/
theorem syncSingleFlight_witness :
    (runO [OEvent.pubJoined ⟨"7", "Bob", "u1"⟩, OEvent.offerArrives "o1",
        OEvent.trigger]).outstanding ≤ 1
  ∧ (oStep (runO [OEvent.pubJoined ⟨"7", "Bob", "u1"⟩, OEvent.offerArrives "o1",
        OEvent.trigger]) OEvent.answerReady).pendingFlag = false
  ∧ (oStep (runO [OEvent.pubJoined ⟨"7", "Bob", "u1"⟩, OEvent.offerArrives "o1",
        OEvent.trigger]) OEvent.answerReady).syncStarts
      = (runO [OEvent.pubJoined ⟨"7", "Bob", "u1"⟩, OEvent.offerArrives "o1",
          OEvent.trigger]).syncStarts + 1 := by
  have h4 := syncSingleFlight.2.2.2
    [OEvent.pubJoined ⟨"7", "Bob", "u1"⟩, OEvent.offerArrives "o1", OEvent.trigger]
    ["7"] "o1" (by decide) (by decide)
  exact ⟨syncSingleFlight.1 _, h4.1, h4.2⟩

end Orch

namespace Orch

/-- C2: one executing run of `syncSubscriptions` computes the feed set
as all known publishers whose `user_id` differs from the caller's own;
when that set is empty it tears down the subscriber session and clears
all remote streams without sending anything; otherwise it sends exactly
one batched `subscribe` request for exactly that feed set, hands the
returned offer to the subscriber session's batched `subscribeMultiple`
(which builds a receive-only peer connection with the offer applied as
remote description and returns a local answer SDP), and sends the
resulting answer as a fire-and-forget `subscribe_answer`, awaiting no
acknowledgement (the cycle ends with no outstanding request and no
suspended phase). -/
theorem syncRunAlgorithm (s : OState)
    (hidle : s.inProgress = false) (hj : s.isJoined = true)
    (hc : s.connected = true) :
    ((feedsOf s).isEmpty = true →
      (oStep s OEvent.trigger).cleanups = s.cleanups + 1
        ∧ (oStep s OEvent.trigger).remoteStreams = []
        ∧ (oStep s OEvent.trigger).subSession = none
        ∧ (oStep s OEvent.trigger).sent = s.sent)
  ∧ ((feedsOf s).isEmpty = false → ∀ sdp,
      (oStep s OEvent.trigger).sent = s.sent ++ [Wire.subscribeReq (feedsOf s)]
        ∧ (oStep (oStep s OEvent.trigger) (OEvent.offerArrives sdp)).subCalls
            = s.subCalls ++ [(feedsOf s, sdp, (feedsOf s).map (displayOf s),
                (feedsOf s).map (userIdOf s))]
        ∧ (oStep (oStep s OEvent.trigger) (OEvent.offerArrives sdp)).subSession
            = some { remoteDescription := sdp, direction := "recvonly",
                     feedIds := feedsOf s }
        ∧ (oStep (oStep (oStep s OEvent.trigger) (OEvent.offerArrives sdp))
              OEvent.answerReady).sent
            = s.sent ++ [Wire.subscribeReq (feedsOf s),
                Wire.subscribeAnswer (mkAnswer sdp)]
        ∧ (oStep (oStep (oStep s OEvent.trigger) (OEvent.offerArrives sdp))
              OEvent.answerReady).phase = none
        ∧ (oStep (oStep (oStep s OEvent.trigger) (OEvent.offerArrives sdp))
              OEvent.answerReady).outstanding = s.outstanding
        ∧ Wire.expectsAck (Wire.subscribeAnswer (mkAnswer sdp)) = false) := by
  have htr : oStep s OEvent.trigger = startSyncBody s := by
    simp [oStep, callSync, hidle, hj, hc]
  constructor
  · intro hemp
    rw [htr]
    refine ⟨?_, ?_, ?_, ?_⟩ <;> simp [startSyncBody, hemp]
  · intro hne sdp
    have hbody : startSyncBody s
        = { s with inProgress := true, pendingFlag := false,
                   syncStarts := s.syncStarts + 1,
                   outstanding := s.outstanding + 1,
                   sent := s.sent ++ [Wire.subscribeReq (feedsOf s)],
                   phase := some (SyncPhase.awaitingOffer (feedsOf s)) } := by
      simp only [startSyncBody, hne, Bool.false_eq_true, if_false]
    have h1 : oStep s OEvent.trigger
        = { s with inProgress := true, pendingFlag := false,
                   syncStarts := s.syncStarts + 1,
                   outstanding := s.outstanding + 1,
                   sent := s.sent ++ [Wire.subscribeReq (feedsOf s)],
                   phase := some (SyncPhase.awaitingOffer (feedsOf s)) } :=
      htr.trans hbody
    have h2 : oStep (oStep s OEvent.trigger) (OEvent.offerArrives sdp)
        = { s with inProgress := true, pendingFlag := false,
                   syncStarts := s.syncStarts + 1,
                   outstanding := s.outstanding,
                   sent := s.sent ++ [Wire.subscribeReq (feedsOf s)],
                   subCalls := s.subCalls ++ [(feedsOf s, sdp,
                     (feedsOf s).map (displayOf s),
                     (feedsOf s).map (userIdOf s))],
                   subSession := some { remoteDescription := sdp,
                                        direction := "recvonly",
                                        feedIds := feedsOf s },
                   phase := some (SyncPhase.awaitingAnswer (feedsOf s) sdp) } := by
      rw [h1]
      simp [oStep, subscribeMultiple, displayOf, userIdOf]
    have h3 : oStep (oStep (oStep s OEvent.trigger) (OEvent.offerArrives sdp))
          OEvent.answerReady
        = { s with inProgress := false, pendingFlag := false,
                   syncStarts := s.syncStarts + 1,
                   outstanding := s.outstanding,
                   sent := s.sent ++ [Wire.subscribeReq (feedsOf s),
                     Wire.subscribeAnswer (mkAnswer sdp)],
                   subCalls := s.subCalls ++ [(feedsOf s, sdp,
                     (feedsOf s).map (displayOf s),
                     (feedsOf s).map (userIdOf s))],
                   subSession := some { remoteDescription := sdp,
                                        direction := "recvonly",
                                        feedIds := feedsOf s },
                   phase := none } := by
      rw [h2]
      simp [oStep, finishSync]
    refine ⟨by rw [h1], by rw [h2], by rw [h2], by rw [h3], by rw [h3],
      by rw [h3], rfl⟩

/-- C2, witness for `syncRunAlgorithm`: with the only publisher being
the caller's own feed the run clears the remote streams and sends
nothing; with one remote publisher (feed 7) it sends exactly one
batched subscribe for `["7"]` and answers the received offer with the
subscriber session's SDP, fire-and-forget. -/
theorem syncRunAlgorithm_witness :
    (oStep { oInit with publishers := [⟨"7", "Bob", "me"⟩],
                        remoteStreams := [("7", "st")] } OEvent.trigger).remoteStreams = []
  ∧ (oStep { oInit with publishers := [⟨"7", "Bob", "u1"⟩] } OEvent.trigger).sent
      = [Wire.subscribeReq ["7"]]
  ∧ (oStep (oStep (oStep { oInit with publishers := [⟨"7", "Bob", "u1"⟩] }
        OEvent.trigger) (OEvent.offerArrives "offer")) OEvent.answerReady).sent
      = [Wire.subscribeReq ["7"], Wire.subscribeAnswer (mkAnswer "offer")] := by
  refine ⟨?_, ?_, ?_⟩
  · exact ((syncRunAlgorithm _ rfl rfl rfl).1 (by decide)).2.1
  · have h := (syncRunAlgorithm { oInit with publishers := [⟨"7", "Bob", "u1"⟩] }
      rfl rfl rfl).2 (by decide) "offer"
    rw [h.1]
    decide
  · have h := (syncRunAlgorithm { oInit with publishers := [⟨"7", "Bob", "u1"⟩] }
      rfl rfl rfl).2 (by decide) "offer"
    rw [h.2.2.2.1]
    decide

end Orch

namespace Publisher

theorem replaceTrack_notFound (ss : List Sender) (t : Track)
    (h : ∀ s ∈ ss, s.track.kind ≠ t.kind) :
    replaceTrack ss t = (ss ++ [⟨t⟩], ⟨false, true⟩) := by
  induction ss with
  | nil => simp [replaceTrack]
  | cons a rest ih =>
      have ha : ¬ a.track.kind = t.kind := h a (by simp)
      have hr := ih (fun s hs => h s (by simp [hs]))
      simp [replaceTrack, ha, hr]

theorem replaceTrack_preserves (p : Sender → Prop) (ss : List Sender)
    (t : Track) (hss : ∀ s ∈ ss, p s) (ht : p ⟨t⟩) :
    ∀ s ∈ (replaceTrack ss t).1, p s := by
  induction ss with
  | nil =>
      intro s hs
      simp only [replaceTrack, List.mem_singleton] at hs
      subst hs
      exact ht
  | cons a rest ih =>
      intro s hs
      by_cases ha : a.track.kind = t.kind
      · simp only [replaceTrack, ha, if_true, List.mem_cons] at hs
        rcases hs with hs | hs
        · subst hs
          exact ht
        · exact hss s (by simp [hs])
      · simp only [replaceTrack, ha, if_false, List.mem_cons] at hs
        rcases hs with hs | hs
        · subst hs
          exact hss s (by simp)
        · exact ih (fun u hu => hss u (by simp [hu])) s hs

/-- C7: when the screen stream carries an audio track and the publisher
has no audio sender to reuse, `startScreenShare` runs the restart
fallback — stop the publisher, clear the self participant's publishing
flag, run `startPublishing()` again (sending exactly one fresh
`publish_offer`), then re-apply the screen video and audio tracks — and
after completion `isScreenShareAudio` is true (and sharing is on with
the publisher publishing again). -/
theorem screenShareRestartFallback (w : World) (sv sa : Track)
    (hshare : w.isScreenSharing = false) (hpub : w.pubPublishing = true)
    (hsv : sv.kind = Kind.video) (hsa : sa.kind = Kind.audio)
    (hnoaud : ∀ s ∈ w.senders, s.track.kind ≠ Kind.audio) :
    (startScreenShare w sv (some sa)).isScreenShareAudio = true
  ∧ (startScreenShare w sv (some sa)).isScreenSharing = true
  ∧ (startScreenShare w sv (some sa)).selfPublishing = true
  ∧ (startScreenShare w sv (some sa)).pubPublishing = true
  ∧ (startScreenShare w sv (some sa)).ops
      = w.ops ++ [Op.replaceT Kind.video, Op.replaceT Kind.audio, Op.stopPub,
          Op.clearSelfPublishing, Op.publishOffer, Op.replaceT Kind.video,
          Op.replaceT Kind.audio] := by
  have hno1 : ∀ s ∈ (replaceTrack w.senders sv).1, s.track.kind ≠ Kind.audio := by
    refine replaceTrack_preserves (fun s => s.track.kind ≠ Kind.audio)
      w.senders sv hnoaud ?_
    simp [hsv]
  have h2 : replaceTrack (replaceTrack w.senders sv).1 sa
      = ((replaceTrack w.senders sv).1 ++ [⟨sa⟩], ⟨false, true⟩) := by
    apply replaceTrack_notFound
    intro s hs
    rw [hsa]
    exact hno1 s hs
  have h3 : ∀ c : Nat, replaceTrack [⟨⟨Kind.audio, c⟩⟩, ⟨⟨Kind.video, c + 1⟩⟩] sv
      = ([⟨⟨Kind.audio, c⟩⟩, ⟨sv⟩], ⟨true, false⟩) := by
    intro c
    simp [replaceTrack, hsv]
  have h4 : replaceTrack [⟨⟨Kind.audio, w.freshCtr⟩⟩, ⟨sv⟩] sa
      = ([⟨sa⟩, ⟨sv⟩], ⟨true, false⟩) := by
    simp [replaceTrack, hsa]
  refine ⟨?_, ?_, ?_, ?_, ?_⟩ <;>
    simp [startScreenShare, doReplace, pubStop, startPublishing, hshare, hpub,
      h2, h3, h4, hsv, hsa]

/-- C7, witness for `screenShareRestartFallback`: a publisher currently
sending a single (video-only) sender receives a screen stream with both
a video and an audio track; the restart fallback runs and screen audio
ends up published. -/
theorem screenShareRestartFallback_witness :
    (startScreenShare
        { senders := [⟨⟨Kind.video, 0⟩⟩], pubInitialized := true,
          pubPublishing := true, selfPublishing := true,
          isScreenSharing := false, isScreenShareAudio := false,
          localTracks := [⟨Kind.video, 0⟩], screenTracks := [],
          freshCtr := 10, ops := [] }
        ⟨Kind.video, 100⟩ (some ⟨Kind.audio, 101⟩)).isScreenShareAudio = true
  ∧ (startScreenShare
        { senders := [⟨⟨Kind.video, 0⟩⟩], pubInitialized := true,
          pubPublishing := true, selfPublishing := true,
          isScreenSharing := false, isScreenShareAudio := false,
          localTracks := [⟨Kind.video, 0⟩], screenTracks := [],
          freshCtr := 10, ops := [] }
        ⟨Kind.video, 100⟩ (some ⟨Kind.audio, 101⟩)).ops
      = [Op.replaceT Kind.video, Op.replaceT Kind.audio, Op.stopPub,
         Op.clearSelfPublishing, Op.publishOffer, Op.replaceT Kind.video,
         Op.replaceT Kind.audio] := by
  have h := screenShareRestartFallback
    { senders := [⟨⟨Kind.video, 0⟩⟩], pubInitialized := true,
      pubPublishing := true, selfPublishing := true,
      isScreenSharing := false, isScreenShareAudio := false,
      localTracks := [⟨Kind.video, 0⟩], screenTracks := [],
      freshCtr := 10, ops := [] }
    ⟨Kind.video, 100⟩ ⟨Kind.audio, 101⟩ rfl rfl rfl rfl (by decide)
  exact ⟨h.1, h.2.2.2.2⟩

end Publisher
